import Mathlib

/-
Verification of the saido inventory resolver (config/config.go).

The Go code is embedded shallowly:

  * `Connection` mirrors the Go struct `Connection`; the int32 field `Port`
    is modelled as `Int` (the code only compares it with 0 and assigns 22,
    so no wraparound is involved).
  * Go pointers `*Connection` are modelled by a store: a `List Connection`
    of allocated cells, with a `Nat` index playing the role of the pointer.
    `parseConnection` returning `&c` allocates a fresh cell; the statement
    `currentConn.Host = host` in `parseConfig` is a store update at the
    index held by the current pointer.  This makes the aliasing behaviour
    of the Go code (several hosts holding the same pointer) observable.
  * `log.Fatal` / `log.Fatalf` terminate the process; fallible functions
    therefore return `Except String`.
  * The YAML tree `map[interface{}]interface{}` is modelled by the mutual
    inductive `Node` / `ChildVal` / `ChildList`: a node optionally carries
    a decoded `connection` sub-map, a `children` map (as an ordered entry
    list, since one Go-map iteration is one ordering of the entries) and
    an `alias` string.  A `nil` child value (`ChildVal.nilVal`) is what the
    Go code turns into an empty map before recursing.
-/

deriving instance DecidableEq for Except

namespace Saido

/-- Connection mirrors the Go struct config.Connection; `host` is the
untagged Host field that parseConfig binds during resolution. -/
structure Connection where
  type : String := ""
  username : String := ""
  password : String := ""
  privateKeyPath : String := ""
  privateKeyPassPhrase : String := ""
  port : Int := 0
  host : String := ""
deriving Repr, DecidableEq

/-- parseConnection mirrors config.parseConnection: default the port to 22
for ssh connections without a port, and reject a connection that sets both
a password and a private key (log.Fatal in Go, error here). -/
def parseConnection (c : Connection) : Except String Connection :=
  let c := if c.type == "ssh" && c.port == 0 then { c with port := 22 } else c
  if c.password != "" && c.privateKeyPath != "" then
    Except.error "Cannot specify both password login and private key login on same connection"
  else
    Except.ok c

/-- Modelled from the spec: the driver package is not under src.  The spec
fixes exactly two strategies, Local and RemoteShell, and the composite
literals in ToDriver (config.go lines 52-67) give the SSH driver fields. -/
inductive Driver where
  | SSH (user : String) (host : String) (port : Int) (keyFile : String)
      (keyPass : String) (password : String) (checkKnownHosts : Bool)
  | Local
deriving Repr, DecidableEq

/-- ToDriver mirrors the Go method Connection.ToDriver: the string "ssh"
selects the SSH driver, every other type string falls to the default arm
and yields the Local driver; no error is ever reported. -/
def Connection.ToDriver (conn : Connection) : Driver :=
  match conn.type with
  | "ssh" =>
      Driver.SSH conn.username conn.host conn.port conn.privateKeyPath
        conn.privateKeyPassPhrase conn.password false
  | _ => Driver.Local

/-- Host mirrors the Go struct config.Host; the `connection` field is the
pointer to the Connection cell, i.e. an index into the store. -/
structure Host where
  address : String
  aliasName : String
  connection : Nat
deriving Repr, DecidableEq

mutual

/-- Node models one YAML group map: optional decoded `connection` entry,
optional `children` entry and optional `alias` entry. -/
inductive Node where
  | mk (connection : Option Connection) (children : Option ChildList)
      (aliasName : Option String)

/-- ChildVal models the value of one children entry: either YAML nil (the
Go code falls back to an empty map for it) or a nested node map. -/
inductive ChildVal where
  | nilVal
  | node (n : Node)

/-- ChildList models the children map as the ordered list of its entries;
one Go-map iteration corresponds to one ordering of the entries. -/
inductive ChildList where
  | nil
  | cons (key : String) (val : ChildVal) (rest : ChildList)

end

/-- connStep is the connection-override step of parseConfig (lines 141-148):
if the node declares a connection, parse it and allocate a fresh cell for
it (Go: parseConnection returns a pointer to a new Connection), otherwise
keep the inherited pointer. -/
def connStep (connE : Option Connection) (currentConnection : Nat)
    (store : List Connection) : Except String (Nat × List Connection) :=
  match connE with
  | some v =>
      match parseConnection v with
      | Except.error e => Except.error e
      | Except.ok c => Except.ok (store.length, store ++ [c])
  | none => Except.ok (currentConnection, store)

/-- emitLeaf is the leaf branch of parseConfig (lines 168-179): bind the
Host field of the current Connection cell to the node key (a store update
through the shared pointer) and emit one Host that holds that pointer. -/
def emitLeaf (host : String) (aliasE : Option String) (currentConn : Nat)
    (store : List Connection) : List Host × List Connection :=
  let c := store.getD currentConn {}
  ([⟨host, aliasE.getD "", currentConn⟩],
   store.set currentConn { c with host := host })

mutual

/-- parseConfig mirrors config.parseConfig: resolve a connection override,
then either recurse through the children (isParent) or emit a single leaf
Host. -/
def parseConfig (name : String) (host : String) (group : Node)
    (currentConnection : Nat) (store : List Connection) :
    Except String (List Host × List Connection) :=
  match group with
  | Node.mk connE childrenE aliasE =>
    match connStep connE currentConnection store with
    | Except.error e => Except.error e
    | Except.ok (currentConn, store1) =>
      match childrenE with
      | some cl => parseChildren name cl currentConn store1
      | none => Except.ok (emitLeaf host aliasE currentConn store1)

/-- parseChildren mirrors the children loop of parseConfig (lines 158-165):
process the entries in iteration order, passing the same current pointer to
every child, and concatenate the host lists. -/
def parseChildren (name : String) (cl : ChildList) (currentConn : Nat)
    (store : List Connection) : Except String (List Host × List Connection) :=
  match cl with
  | ChildList.nil => Except.ok ([], store)
  | ChildList.cons k v rest =>
    match parseConfigVal (name ++ ":" ++ k) k v currentConn store with
    | Except.error e => Except.error e
    | Except.ok (hs, store1) =>
      match parseChildren name rest currentConn store1 with
      | Except.error e => Except.error e
      | Except.ok (hs2, store2) => Except.ok (hs ++ hs2, store2)

/-- parseConfigVal is the body of one loop iteration: a nil child value is
treated by the Go code as an empty map, which parseConfig immediately turns
into a leaf with no alias and the inherited pointer (the equation
parseConfigVal_nilVal below checks this against parseConfig itself). -/
def parseConfigVal (name : String) (host : String) (v : ChildVal)
    (currentConn : Nat) (store : List Connection) :
    Except String (List Host × List Connection) :=
  match v with
  | ChildVal.nilVal => Except.ok (emitLeaf host none currentConn store)
  | ChildVal.node n => parseConfig name host n currentConn store

end

/-- resolveHosts is the call on line 104 of config.go:
parseConfig("root", "", config.Hosts, &Connection{}) with a store holding
the single fresh zero Connection cell at index 0. -/
def resolveHosts (hostsTree : Node) : Except String (List Host × List Connection) :=
  parseConfig "root" "" hostsTree 0 [{}]

/-- Config mirrors the Go struct config.Config; the metrics map is kept as
the ordered list of its entries. -/
structure Config where
  hosts : Node
  metrics : List (String × String)
  title : String
  pollInterval : Int

/-- DashboardInfo mirrors the Go struct config.DashboardInfo. -/
structure DashboardInfo where
  hosts : List Host
  metrics : List (String × String)
  title : String
  pollInterval : Int

/-- Ev records the observable order of events inside
GetDashboardInfoConfig: the invocation of host resolution, and any fatal
configuration error. -/
inductive Ev where
  | hostResolution
  | fatal (msg : String)
deriving Repr, DecidableEq

/-- checkMetrics mirrors the metric loop of GetDashboardInfoConfig (lines
105-112): keep each metric with its custom command when Valid accepts it,
log.Fatal on the first invalid one. -/
def checkMetrics (valid : String → Bool) :
    List (String × String) → Except String (List (String × String))
  | [] => Except.ok []
  | (m, cmd) :: rest =>
    if valid m then
      match checkMetrics valid rest with
      | Except.error e => Except.error e
      | Except.ok ms => Except.ok ((m, cmd) :: ms)
    else Except.error ("Found invalid metric " ++ m)

/-- GetDashboardInfoConfig mirrors config.GetDashboardInfoConfig, with the
MetricRegistry predicate inspector.Valid (an external collaborator whose
source is not under src) abstracted as the parameter valid.  The second
component is the event trace: host resolution is invoked first (line 104),
metric validation runs next, and the poll-interval check comes last (line
117). -/
def GetDashboardInfoConfig (valid : String → Bool) (config : Config) :
    Except String (DashboardInfo × List Connection) × List Ev :=
  let title := if config.title != "" then config.title else "Saido"
  match resolveHosts config.hosts with
  | Except.error e => (Except.error e, [Ev.hostResolution, Ev.fatal e])
  | Except.ok (hosts, store) =>
    match checkMetrics valid config.metrics with
    | Except.error e => (Except.error e, [Ev.hostResolution, Ev.fatal e])
    | Except.ok metrics =>
      if config.pollInterval < 5 then
        (Except.error "Cannot set poll interval below 5 seconds",
         [Ev.hostResolution, Ev.fatal "Cannot set poll interval below 5 seconds"])
      else
        (Except.ok
          ({ hosts := hosts, metrics := metrics, title := title,
             pollInterval := config.pollInterval }, store),
         [Ev.hostResolution])

/-- specParse states, in the words of the spec, what a declared connection
override resolves to: the declared value with the port defaulted to 22 when
the strategy is remote shell and no port is given. -/
def specParse (v : Connection) : Connection :=
  if v.type == "ssh" && v.port == 0 then { v with port := 22 } else v

/-- eraseHost forgets the targetHost binding of a connection, so that
connection specs can be compared up to the per-host targetHost field. -/
def eraseHost (c : Connection) : Connection := { c with host := "" }

mutual

/-- wfNode: a tree is well formed when every declared connection override
parses (none sets both a password and a private key). -/
def wfNode : Node → Bool
  | Node.mk co ch _ =>
    (match co with
     | some v => (parseConnection v).isOk
     | none => true) &&
    (match ch with
     | none => true
     | some cl => wfCl cl)

def wfVal : ChildVal → Bool
  | ChildVal.nilVal => true
  | ChildVal.node n => wfNode n

def wfCl : ChildList → Bool
  | ChildList.nil => true
  | ChildList.cons _ v rest => wfVal v && wfCl rest

end

mutual

/-- leafCount counts the leaf nodes of a tree: nodes without a children
entry, including nil-valued child entries. -/
def leafCount : Node → Nat
  | Node.mk _ none _ => 1
  | Node.mk _ (some cl) _ => leafCountCl cl

def leafCountVal : ChildVal → Nat
  | ChildVal.nilVal => 1
  | ChildVal.node n => leafCount n

def leafCountCl : ChildList → Nat
  | ChildList.nil => 0
  | ChildList.cons _ v rest => leafCountVal v + leafCountCl rest

end

mutual

/-- Modelled from the spec: nearestConns lists, in traversal order, the
resolved connection spec of every leaf, namely the connection override
declared at its nearest ancestor (or the leaf itself), with the port
default applied, or the ambient (root default) connection when no ancestor
declares one.  Connections are compared up to the targetHost field, so the
ambient value is kept erased. -/
def nearestConns (amb : Connection) : Node → List Connection
  | Node.mk co ch _ =>
    let amb2 := match co with
                | some v => eraseHost (specParse v)
                | none => amb
    match ch with
    | none => [amb2]
    | some cl => nearestConnsCl amb2 cl

def nearestConnsVal (amb : Connection) : ChildVal → List Connection
  | ChildVal.nilVal => [amb]
  | ChildVal.node n => nearestConns amb n

def nearestConnsCl (amb : Connection) : ChildList → List Connection
  | ChildList.nil => []
  | ChildList.cons _ v rest => nearestConnsVal amb v ++ nearestConnsCl amb rest

end

/-- toList turns the children entry list into a plain list, so that two
iteration orders of the same Go map are two permutations of it. -/
def ChildList.toList : ChildList → List (String × ChildVal)
  | ChildList.nil => []
  | ChildList.cons k v rest => (k, v) :: ChildList.toList rest

/-- fatalBeforeResolution holds of a trace in which a fatal error is
reported before host resolution is ever invoked. -/
def fatalBeforeResolution : List Ev → Bool
  | [] => false
  | Ev.fatal _ :: _ => true
  | Ev.hostResolution :: _ => false

/-- exTree is the example inventory of the spec: a root with a local
connection and two children, web (an ssh override on port 2222) and db (a
bare nil leaf). -/
def exTree : Node :=
  Node.mk (some { type := "local" })
    (some (ChildList.cons "web"
      (ChildVal.node (Node.mk (some { type := "ssh", port := 2222 }) none none))
      (ChildList.cons "db" ChildVal.nilVal ChildList.nil)))
    none

/-- tShared is a root with a local connection and two bare leaves a and b,
which in the Go code both inherit the same Connection pointer. -/
def tShared : Node :=
  Node.mk (some { type := "local" })
    (some (ChildList.cons "a" ChildVal.nilVal
      (ChildList.cons "b" ChildVal.nilVal ChildList.nil)))
    none

/-- clOrderA and clOrderB are the two iteration orders of one two-entry
children map with bare leaves x and y. -/
def clOrderA : ChildList :=
  ChildList.cons "x" ChildVal.nilVal (ChildList.cons "y" ChildVal.nilVal ChildList.nil)

def clOrderB : ChildList :=
  ChildList.cons "y" ChildVal.nilVal (ChildList.cons "x" ChildVal.nilVal ChildList.nil)

def tOrderA : Node := Node.mk none (some clOrderA) none

def tOrderB : Node := Node.mk none (some clOrderB) none

/-- cfgLowInterval is the example scenario of the spec: a trivial inventory
with poll-interval 3. -/
def cfgLowInterval : Config :=
  { hosts := Node.mk none none none, metrics := [], title := "", pollInterval := 3 }

/-- cfgBadMetric is a configuration with a single metric entry. -/
def cfgBadMetric : Config :=
  { hosts := Node.mk none none none, metrics := [("mem", "x")], title := "",
    pollInterval := 5 }

theorem getD_set_self {α : Type} (l : List α) (i : Nat) (v d : α)
    (h : i < l.length) : (l.set i v).getD i d = v := by
  induction l generalizing i with
  | nil => simp at h
  | cons a t ih =>
    cases i with
    | zero => simp
    | succ j => simpa using ih j (by simpa using h)

theorem getD_set_ne {α : Type} (l : List α) (i j : Nat) (v d : α)
    (h : i ≠ j) : (l.set i v).getD j d = l.getD j d := by
  induction l generalizing i j with
  | nil => simp
  | cons a t ih =>
    cases i with
    | zero =>
      cases j with
      | zero => exact absurd rfl h
      | succ j2 => simp
    | succ i2 =>
      cases j with
      | zero => simp
      | succ j2 => simpa using ih i2 j2 (by omega)

theorem getD_append_lt {α : Type} (l l2 : List α) (j : Nat) (d : α)
    (h : j < l.length) : (l ++ l2).getD j d = l.getD j d := by
  induction l generalizing j with
  | nil => simp at h
  | cons a t ih =>
    cases j with
    | zero => simp
    | succ j2 => simpa using ih j2 (by simpa using h)

theorem getD_append_len {α : Type} (l : List α) (v d : α) :
    (l ++ [v]).getD l.length d = v := by
  induction l with
  | nil => simp
  | cons a t ih => simp [ih]

theorem eraseHost_setHost (c : Connection) (x : String) :
    eraseHost { c with host := x } = eraseHost c := rfl

/-- parseConnection written with the declared-value resolution made
explicit: it errors exactly on the password and private-key conflict and
otherwise returns the port-defaulted declared value. -/
theorem parseConnection_eq (v : Connection) :
    parseConnection v =
      if (specParse v).password != "" && (specParse v).privateKeyPath != "" then
        Except.error "Cannot specify both password login and private key login on same connection"
      else Except.ok (specParse v) := rfl

/-- parseConnection, when it succeeds, returns exactly the declared value
with the port default applied. -/
theorem parseConnection_ok (v c : Connection)
    (h : parseConnection v = Except.ok c) : c = specParse v := by
  rw [parseConnection_eq] at h
  split at h
  · cases h
  · cases h
    rfl

/-- parseConfigVal on a nil child value agrees with parseConfig on the
empty node map, matching the Go fallback of a nil child to an empty map. -/
theorem parseConfigVal_nilVal (name host : String) (amb : Nat)
    (store : List Connection) :
    parseConfigVal name host ChildVal.nilVal amb store =
      parseConfig name host (Node.mk none none none) amb store := rfl

/-- ResolveSpec collects the invariants of one parseConfig call: the store
only grows, existing cells keep their connection spec (only the targetHost
field is ever mutated), every emitted host points into the store, the
emitted hosts resolve (in order, up to targetHost) to the given connection
list, and their number is the given leaf count. -/
def ResolveSpec (hs : List Host) (store store' : List Connection)
    (conns : List Connection) (n : Nat) : Prop :=
  store.length ≤ store'.length ∧
  (∀ i, i < store.length →
    eraseHost (store'.getD i {}) = eraseHost (store.getD i {})) ∧
  (∀ h, h ∈ hs → h.connection < store'.length) ∧
  hs.map (fun h => eraseHost (store'.getD h.connection {})) = conns ∧
  hs.length = n

mutual

/-- nodeSize is a measure for induction over the mutual tree types. -/
def nodeSize : Node → Nat
  | Node.mk _ none _ => 1
  | Node.mk _ (some cl) _ => 1 + clSize cl

def valSize : ChildVal → Nat
  | ChildVal.nilVal => 1
  | ChildVal.node n => 1 + nodeSize n

def clSize : ChildList → Nat
  | ChildList.nil => 0
  | ChildList.cons _ v rest => 1 + valSize v + clSize rest

end

mutual

/-- parseConfig on a well-formed tree succeeds, emits one host per leaf,
and resolves every leaf to the connection declared at its nearest ancestor
(or the ambient connection), compared up to the targetHost field. -/
theorem parseConfig_sound (t : Node) (name host : String) (amb : Nat)
    (store : List Connection) (hwf : wfNode t = true)
    (hamb : amb < store.length) :
    ∃ hs store', parseConfig name host t amb store = Except.ok (hs, store') ∧
      ResolveSpec hs store store'
        (nearestConns (eraseHost (store.getD amb {})) t) (leafCount t) := by
  cases t with
  | mk co ch al =>
    cases co with
    | none =>
      cases ch with
      | none =>
        refine ⟨[⟨host, al.getD "", amb⟩],
          store.set amb { store.getD amb {} with host := host },
          rfl, ?_, ?_, ?_, ?_, ?_⟩
        · simp [List.length_set]
        · intro i hi
          by_cases hij : amb = i
          · subst hij
            rw [getD_set_self _ _ _ _ hamb, eraseHost_setHost]
          · rw [getD_set_ne _ _ _ _ _ hij]
        · intro h hh
          rw [List.mem_singleton] at hh
          subst hh
          simpa [List.length_set] using hamb
        · simp only [List.map_cons, List.map_nil, nearestConns]
          rw [getD_set_self _ _ _ _ hamb, eraseHost_setHost]
        · simp [leafCount]
      | some cl =>
        have hwf2 : wfCl cl = true := by
          simpa [wfNode] using hwf
        obtain ⟨hs, store', heq, hspec⟩ :=
          parseChildren_sound cl name amb store hwf2 hamb
        refine ⟨hs, store', heq, ?_⟩
        simp only [nearestConns, leafCount]
        exact hspec
    | some v =>
      cases ch with
      | none =>
        have hok : (parseConnection v).isOk = true := by
          simpa [wfNode] using hwf
        obtain ⟨c, hc⟩ : ∃ c, parseConnection v = Except.ok c := by
          cases hpc : parseConnection v with
          | error e =>
            rw [hpc] at hok
            exact absurd hok (by simp [Except.isOk, Except.toBool])
          | ok c => exact ⟨c, rfl⟩
        have hcv : c = specParse v := parseConnection_ok v c hc
        have hcs : connStep (some v) amb store =
            Except.ok (store.length, store ++ [c]) := by
          simp [connStep, hc]
        have hlen : store.length < (store ++ [c]).length := by simp
        refine ⟨[⟨host, al.getD "", store.length⟩],
          (store ++ [c]).set store.length { c with host := host },
          ?_, ?_, ?_, ?_, ?_, ?_⟩
        · simp [parseConfig, hcs, emitLeaf, getD_append_len]
        · simp [List.length_set]
        · intro i hi
          rw [getD_set_ne _ _ _ _ _ (by omega), getD_append_lt _ _ _ _ hi]
        · intro h hh
          rw [List.mem_singleton] at hh
          subst hh
          simp [List.length_set]
        · simp only [List.map_cons, List.map_nil, nearestConns]
          rw [getD_set_self _ _ _ _ hlen, eraseHost_setHost, hcv]
        · simp [leafCount]
      | some cl =>
        have hboth : (parseConnection v).isOk = true ∧ wfCl cl = true := by
          simpa [wfNode, Bool.and_eq_true] using hwf
        have hok : (parseConnection v).isOk = true := hboth.1
        have hwf2 : wfCl cl = true := hboth.2
        obtain ⟨c, hc⟩ : ∃ c, parseConnection v = Except.ok c := by
          cases hpc : parseConnection v with
          | error e =>
            rw [hpc] at hok
            exact absurd hok (by simp [Except.isOk, Except.toBool])
          | ok c => exact ⟨c, rfl⟩
        have hcv : c = specParse v := parseConnection_ok v c hc
        have hcs : connStep (some v) amb store =
            Except.ok (store.length, store ++ [c]) := by
          simp [connStep, hc]
        have hlen : store.length < (store ++ [c]).length := by simp
        obtain ⟨hs, store', heq, h1, h2, h3, h4, h5⟩ :=
          parseChildren_sound cl name store.length (store ++ [c]) hwf2 hlen
        refine ⟨hs, store', ?_, ?_, ?_, ?_, ?_, ?_⟩
        · simp [parseConfig, hcs, heq]
        · simp at h1
          omega
        · intro i hi
          rw [h2 i (by simp; omega), getD_append_lt _ _ _ _ hi]
        · exact h3
        · rw [h4, getD_append_len]
          simp only [nearestConns, hcv]
        · simpa [leafCount] using h5
termination_by nodeSize t
decreasing_by
all_goals subst_vars
all_goals simp [nodeSize, clSize, valSize]

theorem parseConfigVal_sound (v : ChildVal) (name host : String) (amb : Nat)
    (store : List Connection) (hwf : wfVal v = true)
    (hamb : amb < store.length) :
    ∃ hs store', parseConfigVal name host v amb store = Except.ok (hs, store') ∧
      ResolveSpec hs store store'
        (nearestConnsVal (eraseHost (store.getD amb {})) v) (leafCountVal v) := by
  cases v with
  | nilVal =>
    refine ⟨[⟨host, "", amb⟩],
      store.set amb { store.getD amb {} with host := host },
      rfl, ?_, ?_, ?_, ?_, ?_⟩
    · simp [List.length_set]
    · intro i hi
      by_cases hij : amb = i
      · subst hij
        rw [getD_set_self _ _ _ _ hamb, eraseHost_setHost]
      · rw [getD_set_ne _ _ _ _ _ hij]
    · intro h hh
      rw [List.mem_singleton] at hh
      subst hh
      simpa [List.length_set] using hamb
    · simp only [List.map_cons, List.map_nil, nearestConnsVal]
      rw [getD_set_self _ _ _ _ hamb, eraseHost_setHost]
    · simp [leafCountVal]
  | node n =>
    have hwf2 : wfNode n = true := by simpa [wfVal] using hwf
    obtain ⟨hs, store', heq, hspec⟩ :=
      parseConfig_sound n name host amb store hwf2 hamb
    refine ⟨hs, store', heq, ?_⟩
    simp only [nearestConnsVal, leafCountVal]
    exact hspec
termination_by valSize v
decreasing_by
all_goals subst_vars
all_goals simp [nodeSize, clSize, valSize]

theorem parseChildren_sound (cl : ChildList) (name : String) (amb : Nat)
    (store : List Connection) (hwf : wfCl cl = true)
    (hamb : amb < store.length) :
    ∃ hs store', parseChildren name cl amb store = Except.ok (hs, store') ∧
      ResolveSpec hs store store'
        (nearestConnsCl (eraseHost (store.getD amb {})) cl) (leafCountCl cl) := by
  cases cl with
  | nil =>
    exact ⟨[], store, rfl,
      Nat.le_refl _, fun i _ => rfl, by simp, by simp [nearestConnsCl],
      by simp [leafCountCl]⟩
  | cons k v rest =>
    have hv : wfVal v = true := by
      have := hwf
      simp [wfCl, Bool.and_eq_true] at this
      exact this.1
    have hrest : wfCl rest = true := by
      have := hwf
      simp [wfCl, Bool.and_eq_true] at this
      exact this.2
    obtain ⟨hs1, storeA, heq1, a1, a2, a3, a4, a5⟩ :=
      parseConfigVal_sound v (name ++ ":" ++ k) k amb store hv hamb
    obtain ⟨hs2, storeB, heq2, b1, b2, b3, b4, b5⟩ :=
      parseChildren_sound rest name amb storeA hrest (by omega)
    refine ⟨hs1 ++ hs2, storeB, ?_, ?_, ?_, ?_, ?_, ?_⟩
    · simp [parseChildren, heq1, heq2]
    · omega
    · intro i hi
      rw [b2 i (by omega), a2 i hi]
    · intro h hh
      rcases List.mem_append.mp hh with h1 | h2
      · have := a3 h h1
        omega
      · exact b3 h h2
    · rw [List.map_append]
      have hmap1 : hs1.map (fun h => eraseHost (storeB.getD h.connection {})) =
          hs1.map (fun h => eraseHost (storeA.getD h.connection {})) :=
        List.map_congr_left (fun h hh => by rw [b2 h.connection (a3 h hh)])
      have hamb2 : eraseHost (storeA.getD amb {}) = eraseHost (store.getD amb {}) :=
        a2 amb hamb
      rw [hmap1, a4, b4, hamb2]
      simp [nearestConnsCl]
    · simp [leafCountCl]
      omega
termination_by clSize cl
decreasing_by
all_goals subst_vars
all_goals simp [nodeSize, clSize, valSize]
all_goals omega

end

theorem specParse_password (c : Connection) :
    (specParse c).password = c.password := by
  unfold specParse
  split <;> rfl

theorem specParse_privateKeyPath (c : Connection) :
    (specParse c).privateKeyPath = c.privateKeyPath := by
  unfold specParse
  split <;> rfl

/-- C1: for every well-formed configuration tree, host resolution succeeds
and produces exactly one Host per leaf node and none per interior node, so
the length of the returned host list equals the number of leaf nodes. -/
theorem C1_one_host_per_leaf (t : Node) (hwf : wfNode t = true) :
    ∃ hs store, resolveHosts t = Except.ok (hs, store) ∧
      hs.length = leafCount t := by
  obtain ⟨hs, store', heq, _, _, _, _, h5⟩ :=
    parseConfig_sound t "root" "" 0 [{}] hwf (by simp)
  exact ⟨hs, store', heq, h5⟩

theorem C1_one_host_per_leaf_witness :
    wfNode exTree = true ∧
    (∃ hs store, resolveHosts exTree = Except.ok (hs, store) ∧
      hs.length = leafCount exTree) :=
  ⟨by decide, C1_one_host_per_leaf exTree (by decide)⟩

/-- C9: a child entry whose value is YAML nil is a valid bare leaf: the
loop iteration for it succeeds and emits exactly one Host with that key as
address, the default empty alias, and the connection inherited from the
ambient ancestor pointer (whose cell only has its targetHost rebound). -/
theorem C9_nil_child_is_bare_leaf (name k : String) (amb : Nat)
    (store : List Connection) :
    parseChildren name (ChildList.cons k ChildVal.nilVal ChildList.nil) amb store =
      Except.ok ([⟨k, "", amb⟩],
        store.set amb { store.getD amb {} with host := k }) := by
  simp [parseChildren, parseConfigVal, emitLeaf]

/-- C3: every leaf resolves to the connection declared at its nearest
ancestor (or at the leaf itself), port-defaulted, or to the root default
connection when no ancestor declares one; connections are compared up to
the targetHost field, whose binding is the subject of C2.  The second
conjunct is sibling independence: replacing the subtree of one child entry
leaves the resolved connections of the remaining sibling entries unchanged,
since every sibling is resolved from the same ambient connection. -/
theorem C3_nearest_ancestor_resolution :
    (∀ t, wfNode t = true →
      ∃ hs store, resolveHosts t = Except.ok (hs, store) ∧
        hs.map (fun h => eraseHost (store.getD h.connection {})) =
          nearestConns {} t) ∧
    (∀ name k v v2 rest amb store,
      wfVal v = true → wfVal v2 = true → wfCl rest = true →
      amb < store.length →
      ∃ hs st hs2 st2,
        parseChildren name (ChildList.cons k v rest) amb store =
          Except.ok (hs, st) ∧
        parseChildren name (ChildList.cons k v2 rest) amb store =
          Except.ok (hs2, st2) ∧
        (hs.map (fun h => eraseHost (st.getD h.connection {}))).drop
            (leafCountVal v) =
          (hs2.map (fun h => eraseHost (st2.getD h.connection {}))).drop
            (leafCountVal v2)) := by
  constructor
  · intro t hwf
    obtain ⟨hs, store', heq, _, _, _, h4, _⟩ :=
      parseConfig_sound t "root" "" 0 [{}] hwf (by simp)
    exact ⟨hs, store', heq, h4⟩
  · intro name k v v2 rest amb store hv hv2 hrest hamb
    have hlen : ∀ w, wfVal w = true →
        (nearestConnsVal (eraseHost (store.getD amb {})) w).length =
          leafCountVal w := by
      intro w hw
      obtain ⟨hs1, stA, _, _, _, _, m4, m5⟩ :=
        parseConfigVal_sound w name k amb store hw hamb
      rw [← m4, List.length_map, m5]
    have hcons : ∀ w, wfVal w = true → ∃ hs st,
        parseChildren name (ChildList.cons k w rest) amb store =
          Except.ok (hs, st) ∧
        hs.map (fun h => eraseHost (st.getD h.connection {})) =
          nearestConnsVal (eraseHost (store.getD amb {})) w ++
            nearestConnsCl (eraseHost (store.getD amb {})) rest := by
      intro w hw
      have hwcl : wfCl (ChildList.cons k w rest) = true := by
        simp [wfCl, hw, hrest]
      obtain ⟨hs, st, heq, _, _, _, h4, _⟩ :=
        parseChildren_sound (ChildList.cons k w rest) name amb store hwcl hamb
      refine ⟨hs, st, heq, ?_⟩
      rw [h4]
      simp [nearestConnsCl]
    obtain ⟨hs, st, heq, hm⟩ := hcons v hv
    obtain ⟨hs2, st2, heq2, hm2⟩ := hcons v2 hv2
    refine ⟨hs, st, hs2, st2, heq, heq2, ?_⟩
    rw [hm, hm2, ← hlen v hv, ← hlen v2 hv2,
      List.drop_left, List.drop_left]

theorem C3_nearest_ancestor_resolution_witness :
    wfNode exTree = true ∧
    (∃ hs store, resolveHosts exTree = Except.ok (hs, store) ∧
      hs.map (fun h => eraseHost (store.getD h.connection {})) =
        nearestConns {} exTree) :=
  ⟨by decide, C3_nearest_ancestor_resolution.1 exTree (by decide)⟩

/-- C2 fails on the code: when sibling leaves inherit the same ancestor
connection unchanged, they share one Connection cell, and each leaf in turn
overwrites its targetHost; after resolution the shared cell carries the
address of the last sibling, so the first host's connection does not target
its own address, and the connection is not an exclusive copy.  The first
conjunct evaluates the code on tShared; the second refutes the claim. -/
theorem C2_shared_connection_mutated :
    resolveHosts tShared =
      Except.ok ([⟨"a", "", 1⟩, ⟨"b", "", 1⟩],
        [{}, { type := "local", host := "b" }]) ∧
    ¬ (∀ hs store, resolveHosts tShared = Except.ok (hs, store) →
        ∀ h, h ∈ hs → (store.getD h.connection {}).host = h.address) := by
  constructor
  · decide
  · intro hclaim
    have hinst := hclaim [⟨"a", "", 1⟩, ⟨"b", "", 1⟩]
      [{}, { type := "local", host := "b" }] (by decide)
      ⟨"a", "", 1⟩ (by decide)
    exact absurd hinst (by decide)

/-- C4 fails on the code: the children loop iterates a Go map, and the
emitted host order follows the iteration order, so two runs that iterate
the same map in different orders (clOrderA and clOrderB list the same
entries) produce different host sequences. -/
theorem C4_order_depends_on_map_iteration :
    (ChildList.toList clOrderA).Perm (ChildList.toList clOrderB) ∧
    resolveHosts tOrderA ≠ resolveHosts tOrderB := by
  constructor
  · simp only [clOrderA, clOrderB, ChildList.toList]
    exact List.Perm.swap _ _ _
  · decide

/-- C5 as stated fails on the code: with poll-interval 3 the load does end
in a fatal error, but host resolution (line 104) has already run when the
interval check (line 117) fires, so the failure is not before resolution. -/
theorem C5_counterexample :
    cfgLowInterval.pollInterval < 5 ∧
    (GetDashboardInfoConfig (fun _ => true) cfgLowInterval).2 =
      [Ev.hostResolution, Ev.fatal "Cannot set poll interval below 5 seconds"] ∧
    fatalBeforeResolution
      (GetDashboardInfoConfig (fun _ => true) cfgLowInterval).2 = false := by
  refine ⟨by decide, by decide, by decide⟩

/-- C5 amended: for every configuration with poll-interval below 5,
loading the dashboard info fails with a fatal configuration error, but the
failure comes after host resolution has been invoked: the trace starts with
the host-resolution event and contains a fatal event. -/
theorem C5_fatal_after_resolution (valid : String → Bool) (config : Config)
    (h : config.pollInterval < 5) :
    (GetDashboardInfoConfig valid config).1.isOk = false ∧
    (GetDashboardInfoConfig valid config).2.head? = some Ev.hostResolution ∧
    ∃ m, Ev.fatal m ∈ (GetDashboardInfoConfig valid config).2 := by
  simp only [GetDashboardInfoConfig]
  cases hres : resolveHosts config.hosts with
  | error e => simp [Except.isOk, Except.toBool]
  | ok p =>
    obtain ⟨hosts, store⟩ := p
    cases hcm : checkMetrics valid config.metrics with
    | error e => simp [Except.isOk, Except.toBool]
    | ok ms => simp [h, Except.isOk, Except.toBool]

theorem C5_fatal_after_resolution_witness :
    cfgLowInterval.pollInterval < 5 ∧
    ((GetDashboardInfoConfig (fun _ => true) cfgLowInterval).1.isOk = false ∧
     (GetDashboardInfoConfig (fun _ => true) cfgLowInterval).2.head? =
       some Ev.hostResolution ∧
     ∃ m, Ev.fatal m ∈ (GetDashboardInfoConfig (fun _ => true) cfgLowInterval).2) :=
  ⟨by decide, C5_fatal_after_resolution (fun _ => true) cfgLowInterval (by decide)⟩

/-- C6: a decoded ssh connection with port 0 resolves to port 22, and any
explicitly given non-zero port is returned unchanged. -/
theorem C6_ssh_port_default (c c2 : Connection)
    (h : parseConnection c = Except.ok c2) :
    ((c.type = "ssh" ∧ c.port = 0) → c2.port = 22) ∧
    (c.port ≠ 0 → c2.port = c.port) := by
  have hc := parseConnection_ok c c2 h
  subst hc
  constructor
  · intro hp
    obtain ⟨h1, h2⟩ := hp
    simp [specParse, h1, h2]
  · intro h1
    cases hb : (c.type == "ssh" && c.port == 0) with
    | true =>
      exfalso
      simp [Bool.and_eq_true, beq_iff_eq] at hb
      exact h1 hb.2
    | false => simp [specParse, hb]

theorem C6_ssh_port_default_witness :
    ({ type := "ssh", port := 22 } : Connection).port = 22 ∧
    ({ type := "ssh", port := 2222 } : Connection).port = 2222 :=
  ⟨(C6_ssh_port_default { type := "ssh" } { type := "ssh", port := 22 }
      (by decide)).1 ⟨rfl, rfl⟩,
   (C6_ssh_port_default { type := "ssh", port := 2222 }
      { type := "ssh", port := 2222 } (by decide)).2 (by decide)⟩

/-- C7: parseConnection fails exactly when both the password and the
private-key path are non-empty, for any values of the other fields; when at
most one of the two is non-empty it succeeds. -/
theorem C7_password_key_conflict (c : Connection) :
    (parseConnection c).isOk = false ↔
      (c.password ≠ "" ∧ c.privateKeyPath ≠ "") := by
  rw [parseConnection_eq]
  split
  · rename_i hb
    simp only [Except.isOk, Except.toBool]
    simp only [Bool.and_eq_true, bne_iff_ne, specParse_password,
      specParse_privateKeyPath] at hb
    simp [hb]
  · rename_i hb
    simp only [Except.isOk, Except.toBool]
    simp only [Bool.and_eq_true, bne_iff_ne, specParse_password,
      specParse_privateKeyPath] at hb
    simp [hb]

theorem C7_password_key_conflict_witness :
    (parseConnection { password := "p", privateKeyPath := "k" }).isOk = false ∧
    (parseConnection { password := "p" }).isOk = true :=
  ⟨(C7_password_key_conflict { password := "p", privateKeyPath := "k" }).mpr
      ⟨by decide, by decide⟩,
   by decide⟩

theorem checkMetrics_error_of_invalid (valid : String → Bool)
    (ms : List (String × String)) (hex : ∃ p ∈ ms, valid p.1 = false) :
    ∃ e, checkMetrics valid ms = Except.error e := by
  induction ms with
  | nil => simp at hex
  | cons q rest ih =>
    obtain ⟨p, hp, hv⟩ := hex
    obtain ⟨m, cmd⟩ := q
    by_cases hm : valid m = true
    · have hex2 : ∃ p ∈ rest, valid p.1 = false := by
        rcases List.mem_cons.mp hp with h1 | h2
        · subst h1
          rw [hv] at hm
          cases hm
        · exact ⟨p, h2, hv⟩
      obtain ⟨e, he⟩ := ih hex2
      exact ⟨e, by simp [checkMetrics, hm, he]⟩
    · exact ⟨"Found invalid metric " ++ m, by simp [checkMetrics, hm]⟩

theorem checkMetrics_ok (valid : String → Bool)
    (ms ms2 : List (String × String))
    (h : checkMetrics valid ms = Except.ok ms2) :
    ms2 = ms ∧ ∀ p ∈ ms, valid p.1 = true := by
  induction ms generalizing ms2 with
  | nil =>
    simp [checkMetrics] at h
    subst h
    simp
  | cons q rest ih =>
    obtain ⟨m, cmd⟩ := q
    by_cases hm : valid m = true
    · simp only [checkMetrics, hm, if_pos] at h
      cases hrest : checkMetrics valid rest with
      | error e =>
        rw [hrest] at h
        cases h
      | ok ms3 =>
        rw [hrest] at h
        cases h
        obtain ⟨ha, hb⟩ := ih ms3 hrest
        subst ha
        refine ⟨rfl, ?_⟩
        intro p hp
        rcases List.mem_cons.mp hp with h1 | h2
        · subst h1
          exact hm
        · exact hb p h2
    · simp only [checkMetrics, hm, if_neg] at h
      cases h

/-- C8: GetDashboardInfoConfig checks every configured metric name against
the registry predicate at load time; any name the predicate rejects makes
the load fail, and in a successful load every configured metric is kept in
the resulting metrics mapping with its custom command. -/
theorem C8_metric_validation (valid : String → Bool) (config : Config) :
    ((∃ p ∈ config.metrics, valid p.1 = false) →
      (GetDashboardInfoConfig valid config).1.isOk = false) ∧
    (∀ di store,
      (GetDashboardInfoConfig valid config).1 = Except.ok (di, store) →
      di.metrics = config.metrics ∧ ∀ p ∈ config.metrics, valid p.1 = true) := by
  simp only [GetDashboardInfoConfig]
  cases hres : resolveHosts config.hosts with
  | error e =>
    refine ⟨fun _ => by simp [Except.isOk, Except.toBool], ?_⟩
    intro di store hdi
    cases hdi
  | ok p =>
    obtain ⟨hosts, store0⟩ := p
    cases hcm : checkMetrics valid config.metrics with
    | error e =>
      refine ⟨fun _ => by simp [Except.isOk, Except.toBool], ?_⟩
      intro di store hdi
      cases hdi
    | ok ms =>
      obtain ⟨hms, hall⟩ := checkMetrics_ok valid config.metrics ms hcm
      constructor
      · intro hex
        obtain ⟨p, hp, hv⟩ := hex
        rw [hall p hp] at hv
        cases hv
      · intro di store hdi
        by_cases hpi : config.pollInterval < 5
        · simp [hpi] at hdi
        · simp [hpi] at hdi
          obtain ⟨h1, h2⟩ := hdi
          subst h1
          exact ⟨hms, hall⟩

theorem C8_metric_validation_witness :
    (∃ p ∈ cfgBadMetric.metrics, (fun s => s == "cpu") p.1 = false) ∧
    (GetDashboardInfoConfig (fun s => s == "cpu") cfgBadMetric).1.isOk = false :=
  ⟨⟨("mem", "x"), by decide, by decide⟩,
   (C8_metric_validation (fun s => s == "cpu") cfgBadMetric).1
     ⟨("mem", "x"), by decide, by decide⟩⟩

/-- C10: ToDriver maps every connection whose type is not exactly the
string ssh, including local, the empty string and unknown values, to the
Local driver; the function is total, so no error is ever reported. -/
theorem C10_unknown_type_is_local (c : Connection) (h : c.type ≠ "ssh") :
    c.ToDriver = Driver.Local := by
  unfold Connection.ToDriver
  split
  · rename_i heq
    exact absurd heq h
  · rfl

theorem C10_unknown_type_is_local_witness :
    (({ type := "local" } : Connection).type ≠ "ssh" ∧
      ({ type := "local" } : Connection).ToDriver = Driver.Local) ∧
    (({ type := "" } : Connection).ToDriver = Driver.Local) :=
  ⟨⟨by decide, C10_unknown_type_is_local { type := "local" } (by decide)⟩,
   C10_unknown_type_is_local { type := "" } (by decide)⟩

end Saido
